import Mathlib

/-! The OSAL coverage override header `unldLib.h`.

Source: `src/unit-test-coverage/ut-stubs/override_inc/unldLib.h`.

The program under study is a C header.  Its meaning is what the C preprocessor
does with it, so the embedding has three layers.

* The text of the header, verbatim (`unldLib_h_text`), and a lexer for
  translation phases 3 and 4 (comments, lines, directives) that turns it into
  the list of lines `unldLib_h`.  The lexer knows identifiers, numbers and
  single-character punctuators; it does not know string or character literals
  nor line splicing, none of which occurs in the header.
* A preprocessor for the directives the header uses (`#ifndef`, `#define`,
  `#include`, `#endif`, plus `#ifdef` and `#undef`) over object-like macros:
  conditional groups, definition and redefinition, and macro replacement with
  rescanning, where a macro is not replaced inside its own expansion.
  Function-like macros are outside the model.
* The files named by the `#include` lines (`OCS_unldLib.h`, `vxWorks.h`,
  `moduleLib.h`) are not part of the sources at hand.  They are a parameter
  `env` giving, for each file name and each macro table at the point of
  inclusion, the tokens the file emits and the macro table it leaves.  What a
  result needs of them is stated as a hypothesis on `env`.
-/

namespace OsalOverride

/-! ## Preprocessing tokens, lines, and the lexer -/

/-- A preprocessing token, by its spelling. -/
abbrev Token := String

/-- One logical source line after comment removal. -/
inductive Line where
  | blank
  | ifndef (name : String)
  | ifdef (name : String)
  | define (name : String) (body : List Token)
  | undef (name : String)
  | includeSys (file : String)
  | endif
  | text (toks : List Token)
  deriving DecidableEq, Repr

/-- Lexer mode for comment removal. -/
inductive Mode where
  | code
  | block
  | line
  deriving DecidableEq, Repr

/-- Translation phase 3: every comment is replaced by one space character. -/
def stripComments : Mode → List Char → List Char
  | _, [] => []
  | .code, '/' :: '*' :: cs => ' ' :: stripComments .block cs
  | .code, '/' :: '/' :: cs => ' ' :: stripComments .line cs
  | .code, c :: cs => c :: stripComments .code cs
  | .block, '*' :: '/' :: cs => stripComments .code cs
  | .block, _ :: cs => stripComments .block cs
  | .line, '\n' :: cs => '\n' :: stripComments .code cs
  | .line, _ :: cs => stripComments .line cs

/-- Split a character sequence at new-line characters. -/
def splitLines : List Char → List (List Char)
  | [] => [[]]
  | c :: cs =>
    match splitLines cs with
    | [] => [[c]]
    | l :: ls => if c = '\n' then [] :: l :: ls else (c :: l) :: ls

/-- White space inside a line. -/
def isBlankChar (c : Char) : Bool := c = ' ' || c = '\t' || c = '\r'

/-- Characters of identifiers and preprocessing numbers. -/
def isWordChar (c : Char) : Bool := c.isAlphanum || c = '_'

/-- First character of an identifier. -/
def isWordStart (c : Char) : Bool := c.isAlpha || c = '_'

/-- The spelling `cur` read so far, as a token list (empty when nothing was read). -/
def flush (cur : List Char) : List Token :=
  if cur = [] then [] else [String.mk cur]

/-- Split a line into preprocessing tokens: maximal runs of word characters,
and every other non-blank character on its own. -/
def tokenizeAux (cur : List Char) : List Char → List Token
  | [] => flush cur
  | c :: cs =>
    if isWordChar c then tokenizeAux (cur ++ [c]) cs
    else if isBlankChar c then flush cur ++ tokenizeAux [] cs
    else flush cur ++ String.mk [c] :: tokenizeAux [] cs

/-- Preprocessing tokens of a line. -/
def tokenize (cs : List Char) : List Token := tokenizeAux [] cs

/-- Is the spelling an identifier? -/
def isIdentifier (t : Token) : Bool :=
  match t.data with
  | [] => false
  | c :: cs => isWordStart c && cs.all isWordChar

/-- The file name of `#include <file>`. -/
def headerName (cs : List Char) : Option String :=
  match cs.dropWhile isBlankChar with
  | '<' :: rest =>
    let name := rest.takeWhile (fun c => c ≠ '>')
    match rest.dropWhile (fun c => c ≠ '>') with
    | '>' :: tail => if tail.all isBlankChar && name ≠ [] then some (String.mk name) else none
    | _ => none
  | _ => none

/-- The single identifier operand of `#ifndef`, `#ifdef`, `#undef`. -/
def oneName (cs : List Char) : Option String :=
  match tokenize cs with
  | [n] => if isIdentifier n then some n else none
  | _ => none

/-- Parse what follows the `#` of a directive line.  A function-like macro
  definition, and any directive other than the six below, is outside the model
  and gives `none`. -/
def parseDirective (cs : List Char) : Option Line :=
  let cs := cs.dropWhile isBlankChar
  let name := String.mk (cs.takeWhile isWordChar)
  let rest := cs.dropWhile isWordChar
  if name = "ifndef" then (oneName rest).map Line.ifndef
  else if name = "ifdef" then (oneName rest).map Line.ifdef
  else if name = "undef" then (oneName rest).map Line.undef
  else if name = "endif" then (if tokenize rest = [] then some Line.endif else none)
  else if name = "include" then (headerName rest).map Line.includeSys
  else if name = "define" then
    let rest := rest.dropWhile isBlankChar
    let n := String.mk (rest.takeWhile isWordChar)
    match rest.dropWhile isWordChar with
    | '(' :: _ => none
    | body => if isIdentifier n then some (Line.define n (tokenize body)) else none
  else none

/-- Translation phase 4 view of one line: blank, directive, or text. -/
def parseLine (cs : List Char) : Option Line :=
  match cs.dropWhile isBlankChar with
  | [] => some Line.blank
  | '#' :: rest => parseDirective rest
  | rest => some (Line.text (tokenize rest))

/-- Parse all lines; `none` as soon as one line is outside the model. -/
def parseLines : List (List Char) → Option (List Line)
  | [] => some []
  | l :: ls =>
    match parseLine l, parseLines ls with
    | some x, some xs => some (x :: xs)
    | _, _ => none

/-- Lex and parse a source file. -/
def parseFile (src : String) : Option (List Line) :=
  parseLines (splitLines (stripComments .code src.data))

/-- The header, verbatim. -/
def unldLib_h_text : String :=
"/*
 *      Copyright (c) 2019, United States government as represented by the
 *      administrator of the National Aeronautics Space Administration.
 *      All rights reserved. This software was created at NASA Goddard
 *      Space Flight Center pursuant to government contracts.
 *
 *      This is governed by the NASA Open Source Agreement and may be used,
 *      distributed and modified only according to the terms of that agreement.
 */

/* OSAL coverage stub replacement for unldLib.h */
#ifndef _OSAL_OVERRIDE_UNLDLIB_H_
#define _OSAL_OVERRIDE_UNLDLIB_H_

#include <OCS_unldLib.h>
#include <vxWorks.h>
#include <moduleLib.h>

/* ----------------------------------------- */
/* mappings for declarations in unldLib.h */
/* ----------------------------------------- */
#define unldByModuleId    OCS_unldByModuleId


#endif /* _OSAL_OVERRIDE_UNLDLIB_H_ */"

/-- The include guard of the header. -/
def _OSAL_OVERRIDE_UNLDLIB_H_ : String := "_OSAL_OVERRIDE_UNLDLIB_H_"

/-- The vendor symbol covered by the header. -/
def unldByModuleId : String := "unldByModuleId"

/-- The coverage stub the vendor symbol is mapped to. -/
def OCS_unldByModuleId : String := "OCS_unldByModuleId"

/-- The logical lines of the header: what `parseFile` makes of its text.  The
comment of source lines 1 to 9 becomes one blank line. -/
def unldLib_h : List Line :=
  [ .blank,                                           -- source lines 1-9, a comment
    .blank,                                           -- 10
    .blank,                                           -- 11, a comment
    .ifndef _OSAL_OVERRIDE_UNLDLIB_H_,                -- 12
    .define _OSAL_OVERRIDE_UNLDLIB_H_ [],             -- 13
    .blank,                                           -- 14
    .includeSys "OCS_unldLib.h",                      -- 15
    .includeSys "vxWorks.h",                          -- 16
    .includeSys "moduleLib.h",                        -- 17
    .blank,                                           -- 18
    .blank, .blank, .blank,                           -- 19-21, comments
    .define unldByModuleId [OCS_unldByModuleId],      -- 22
    .blank, .blank,                                   -- 23, 24
    .endif ]                                          -- 25

/-! ## Macro tables and macro replacement -/

/-- The macro table: object-like macros with their replacement lists; the
first entry for a name is the one in force. -/
abbrev Table := List (String × List Token)

/-- The replacement list of `n`, when `n` is a macro. -/
def find : Table → String → Option (List Token)
  | [], _ => none
  | (k, b) :: rest, n => if k = n then some b else find rest n

/-- The test of `#ifdef`. -/
def isDefined (tbl : Table) (n : String) : Bool := (find tbl n).isSome

/-- The table without `n` (what `#undef n` leaves). -/
def remove (tbl : Table) (n : String) : Table := tbl.filter (fun e => decide (e.1 ≠ n))

/-- The table after `#define n body`. -/
def insert (tbl : Table) (n : String) (body : List Token) : Table := (n, body) :: remove tbl n

/-- Replace one token.  A macro name is replaced by its replacement list, which
is rescanned with that macro switched off (C11 6.10.3.4).  Every level of
rescanning removes a name from the table, so `tbl.length` levels are enough;
`fuel` counts the levels. -/
def expandTok : Nat → Table → Token → List Token
  | 0, _, t => [t]
  | fuel + 1, tbl, t =>
    match find tbl t with
    | none => [t]
    | some body => body.flatMap (expandTok fuel (remove tbl t))

/-- Macro replacement of a token sequence. -/
def expand (tbl : Table) (toks : List Token) : List Token :=
  toks.flatMap (expandTok tbl.length tbl)

/-! ## The preprocessor -/

/-- What including a file does, given the macro table at the `#include`: the
tokens the file emits and the macro table it leaves. -/
abbrev Env := String → Table → List Token × Table

/-- What the preprocessor did, in order. -/
inductive Event where
  | defined (name : String) (body : List Token)
  | redefined (name : String)
  | undefined (name : String)
  | included (file : String)
  | strayEndif
  deriving DecidableEq, Repr

/-- Preprocessor state.  `skip` is the number of open conditional groups that
are being skipped (0: lines are processed), `depth` the number of open groups
that are being processed. -/
structure PPState where
  macros : Table
  out : List Token
  skip : Nat
  depth : Nat
  log : List Event
  deriving DecidableEq, Repr

/-- The state at the start of a translation unit. -/
def PPState.init : PPState := ⟨[], [], 0, 0, []⟩

/-- The diagnostic of an incompatible redefinition (C11 6.10.3p2). -/
def redefinition (tbl : Table) (n : String) (body : List Token) : List Event :=
  match find tbl n with
  | some old => if old = body then [] else [Event.redefined n]
  | none => []

/-- Process one line. -/
def processLine (env : Env) (s : PPState) : Line → PPState
  | .blank => s
  | .ifndef n =>
    if s.skip = 0 then
      if isDefined s.macros n then { s with skip := 1 } else { s with depth := s.depth + 1 }
    else { s with skip := s.skip + 1 }
  | .ifdef n =>
    if s.skip = 0 then
      if isDefined s.macros n then { s with depth := s.depth + 1 } else { s with skip := 1 }
    else { s with skip := s.skip + 1 }
  | .endif =>
    if s.skip = 0 then
      if s.depth = 0 then { s with log := s.log ++ [Event.strayEndif] }
      else { s with depth := s.depth - 1 }
    else { s with skip := s.skip - 1 }
  | .define n body =>
    if s.skip = 0 then
      { s with macros := insert s.macros n body,
               log := s.log ++ redefinition s.macros n body ++ [Event.defined n body] }
    else s
  | .undef n =>
    if s.skip = 0 then
      { s with macros := remove s.macros n, log := s.log ++ [Event.undefined n] }
    else s
  | .includeSys f =>
    if s.skip = 0 then
      { s with macros := (env f s.macros).2, out := s.out ++ (env f s.macros).1,
               log := s.log ++ [Event.included f] }
    else s
  | .text toks =>
    if s.skip = 0 then { s with out := s.out ++ expand s.macros toks } else s

/-- Process the lines of a file, in order. -/
def processLines (env : Env) (ls : List Line) (s : PPState) : PPState :=
  ls.foldl (processLine env) s

/-- A translation unit that uses no directive but the inclusion of the
override header: runs of tokens, and inclusions of `unldLib.h`. -/
inductive TUItem where
  | tokens (ts : List Token)
  | includeOverride
  deriving DecidableEq, Repr

/-- Process one item of a translation unit. -/
def processItem (env : Env) (s : PPState) : TUItem → PPState
  | .tokens ts => processLine env s (.text ts)
  | .includeOverride => processLines env unldLib_h s

/-- Preprocess a translation unit from the initial state. -/
def preprocess (env : Env) (tu : List TUItem) : PPState :=
  tu.foldl (processItem env) PPState.init

/-- A translation unit in which the header is included after the items `pre`
and before the items `mid`. -/
def withInclusion (pre mid : List TUItem) : List TUItem :=
  pre ++ TUItem.includeOverride :: mid

/-- An environment in which every included file is empty. -/
def noIncludes : Env := fun _ tbl => ([], tbl)

/-- What a file with the lines `ls` does when it is included. -/
def fileEffect (env : Env) (ls : List Line) (tbl : Table) : List Token × Table :=
  let s := processLines env ls ⟨tbl, [], 0, 0, []⟩
  (s.out, s.macros)

/-! ## The override table of a header -/

/-- The `#define` lines of a file, in order. -/
def ownDefines : List Line → Table
  | [] => []
  | .define n body :: ls => (n, body) :: ownDefines ls
  | _ :: ls => ownDefines ls

/-- The include guard: the first two non-blank lines are `#ifndef G` and
`#define G` with an empty replacement list. -/
def includeGuard (ls : List Line) : Option String :=
  match ls.filter (fun l => decide (l ≠ Line.blank)) with
  | .ifndef g :: .define g2 [] :: _ => if g = g2 then some g else none
  | _ => none

/-- The name bindings a header declares: its `#define`s other than the guard. -/
def overrideTable (ls : List Line) : Table :=
  (ownDefines ls).filter (fun e => decide (some e.1 ≠ includeGuard ls))

/-- The files a header includes directly, in order. -/
def ownIncludes : List Line → List String
  | [] => []
  | .includeSys f :: ls => f :: ownIncludes ls
  | _ :: ls => ownIncludes ls

/-- The tokens a line contributes to the output by itself. -/
def ownTokens : Line → List Token
  | .text toks => toks
  | _ => []

/-- Is the line one of the four directives `#ifndef`, `#define`, `#include`, `#endif`? -/
def isGuardDefineIncludeEndif : Line → Bool
  | .ifndef _ => true
  | .define _ _ => true
  | .includeSys _ => true
  | .endif => true
  | _ => false

/-- The macro table made of the header's own definitions alone: the header
processed from the initial state with empty included files. -/
def ownTable : Table := (processLines noIncludes unldLib_h PPState.init).macros

/-- The renaming the header induces: replacement under its override table. -/
def rename (toks : List Token) : List Token := expand (overrideTable unldLib_h) toks

/-! ## Declarations

Neither the vendor declaration of `unldByModuleId` nor the file
`OCS_unldLib.h` that the header includes is among the sources at hand.  What
the specification says about them is modelled here. -/

/-- A function declaration `ret name(params);`, types spelled as tokens. -/
structure FunDecl where
  ret : List Token
  name : String
  params : List (List Token)
  deriving DecidableEq, Repr

/-- The parameter types separated by commas. -/
def paramTokens : List (List Token) → List Token
  | [] => []
  | [p] => p
  | p :: q :: ps => p ++ "," :: paramTokens (q :: ps)

/-- The tokens of the declaration `ret name(params);`. -/
def declTokens (d : FunDecl) : List Token :=
  d.ret ++ d.name :: "(" :: paramTokens d.params ++ [")", ";"]

/-- The name the header's override table maps `n` to (`n` itself when the table
has no binding for it). -/
def stubOf (n : String) : String :=
  match find (overrideTable unldLib_h) n with
  | some [t] => t
  | _ => n

/-- Modelled from the spec: the declaration of the counterfeit, which is not
among the sources at hand.  Section 4.1: for a vendor declaration
`R f(Args...)` the override mechanism provides a same-signature counterfeit
`R f_stub(Args...)`; `f_stub` is the name the header maps `f` to. -/
def counterfeitDecl (d : FunDecl) : FunDecl :=
  { ret := d.ret, name := stubOf d.name, params := d.params }

/-- Modelled from the spec: the lines of the consumed declaration header
`OCS_unldLib.h`, which is not among the sources at hand.  Section 6: it brings
in the vendor declaration of the real function signature `d`; sections 4.1 and
6: the counterfeit with the matching signature is declared for the macro
target to type-check. -/
def OCS_unldLib_h (d : FunDecl) : List Line :=
  [Line.text (declTokens d), Line.text (declTokens (counterfeitDecl d))]

/-- Does a call of `callee` with arguments of the types `args`, used where a
value of type `result` is expected, agree with the declaration `d`? -/
def callMatches (d : FunDecl) (callee : Token) (args : List (List Token))
    (result : List Token) : Bool :=
  decide (callee = d.name) && decide (args = d.params) && decide (result = d.ret)

/-- The events logged after the first `n`. -/
def newEvents (n : Nat) (s : PPState) : List Event := s.log.drop n

/-! ## One inclusion of the header, and what is assumed of the included files -/

/-- The macro table just before the `#define unldByModuleId` line, when the
guarded body of the header is processed from the table `tbl`. -/
def tableBeforeMapping (env : Env) (tbl : Table) : Table :=
  (env "moduleLib.h"
    (env "vxWorks.h"
      (env "OCS_unldLib.h" (insert tbl _OSAL_OVERRIDE_UNLDLIB_H_ [])).2).2).2

/-- The tokens the three included files emit, when the guarded body of the
header is processed from the table `tbl`. -/
def includedTokens (env : Env) (tbl : Table) : List Token :=
  (env "OCS_unldLib.h" (insert tbl _OSAL_OVERRIDE_UNLDLIB_H_ [])).1
    ++ (env "vxWorks.h" (env "OCS_unldLib.h" (insert tbl _OSAL_OVERRIDE_UNLDLIB_H_ [])).2).1
    ++ (env "moduleLib.h"
        (env "vxWorks.h"
          (env "OCS_unldLib.h" (insert tbl _OSAL_OVERRIDE_UNLDLIB_H_ [])).2).2).1

/-- The state after the header, when its guarded body is processed. -/
def afterHeader (env : Env) (s : PPState) : PPState :=
  { macros := insert (tableBeforeMapping env s.macros) unldByModuleId [OCS_unldByModuleId]
    out := s.out ++ includedTokens env s.macros
    skip := 0
    depth := s.depth
    log := s.log ++ [Event.defined _OSAL_OVERRIDE_UNLDLIB_H_ [], Event.included "OCS_unldLib.h",
            Event.included "vxWorks.h", Event.included "moduleLib.h"]
          ++ redefinition (tableBeforeMapping env s.macros) unldByModuleId [OCS_unldByModuleId]
          ++ [Event.defined unldByModuleId [OCS_unldByModuleId]] }

/-- The files the header includes never make the stub name a macro. -/
def EnvNoStubMacro (env : Env) : Prop :=
  ∀ f ∈ ownIncludes unldLib_h, ∀ tbl : Table,
    find tbl OCS_unldByModuleId = none → find (env f tbl).2 OCS_unldByModuleId = none

/-- The files the header includes never undefine the include guard of the header. -/
def EnvKeepsGuard (env : Env) : Prop :=
  ∀ f ∈ ownIncludes unldLib_h, ∀ tbl : Table,
    isDefined tbl _OSAL_OVERRIDE_UNLDLIB_H_ = true →
      isDefined (env f tbl).2 _OSAL_OVERRIDE_UNLDLIB_H_ = true

/-- Holds all along a translation unit: lines are processed, the stub name is
not a macro, and once the guard is defined the mapping is in force. -/
def StubFree (s : PPState) : Prop :=
  s.skip = 0 ∧ find s.macros OCS_unldByModuleId = none ∧
    (isDefined s.macros _OSAL_OVERRIDE_UNLDLIB_H_ = true →
      find s.macros unldByModuleId = some [OCS_unldByModuleId])

/-- Holds from the first inclusion of the header on: the mapping is in force. -/
def Mapped (s : PPState) : Prop :=
  s.skip = 0 ∧ find s.macros OCS_unldByModuleId = none ∧
    find s.macros unldByModuleId = some [OCS_unldByModuleId]

/-- A sample of what the included files may be: `OCS_unldLib.h` declares the
stub, `vxWorks.h` maps a type name, `moduleLib.h` is empty. -/
def sampleEnv : Env := fun f tbl =>
  if f = "OCS_unldLib.h" then
    (expand tbl ["STATUS", "OCS_unldByModuleId", "(", "MODULE_ID", ",", "int", ")", ";"], tbl)
  else if f = "vxWorks.h" then ([], insert tbl "STATUS" ["OCS_STATUS"])
  else ([], tbl)

/-- An included file that defines the stub name as a macro for the vendor
name: `vxWorks.h` containing `#define OCS_unldByModuleId unldByModuleId`. -/
def cyclicEnv : Env := fun f tbl =>
  if f = "vxWorks.h" then ([], insert tbl OCS_unldByModuleId [unldByModuleId]) else ([], tbl)

/-- An included file that undefines the guard of the header: `moduleLib.h`
containing `#undef _OSAL_OVERRIDE_UNLDLIB_H_` and one declaration. -/
def unguardingEnv : Env := fun f tbl =>
  if f = "moduleLib.h" then (["int", "x", ";"], remove tbl _OSAL_OVERRIDE_UNLDLIB_H_)
  else ([], tbl)

/-- A sample vendor declaration: `STATUS unldByModuleId(MODULE_ID, int);`. -/
def sampleDecl : FunDecl :=
  { ret := ["STATUS"], name := "unldByModuleId", params := [["MODULE_ID"], ["int"]] }

/-- The included files as the specification describes them, for the sample
declaration; `vxWorks.h` and `moduleLib.h` are taken empty. -/
def specEnv : Env := fun f tbl =>
  if f = "OCS_unldLib.h" then fileEffect noIncludes (OCS_unldLib_h sampleDecl) tbl else ([], tbl)

/-! ## Facts about the lexer and the tables -/

set_option maxRecDepth 100000 in
/-- Lexing and parsing the text of the header gives `unldLib_h`. -/
theorem parse_unldLib_h : parseFile unldLib_h_text = some unldLib_h := by
  rfl

theorem remove_cons (k : String) (b : List Token) (rest : Table) (n : String) :
    remove ((k, b) :: rest) n = if k = n then remove rest n else (k, b) :: remove rest n := by
  by_cases h : k = n <;> simp [remove, List.filter_cons, h]

theorem find_remove_self (tbl : Table) (n : String) : find (remove tbl n) n = none := by
  induction tbl with
  | nil => rfl
  | cons e rest ih =>
    obtain ⟨k, b⟩ := e
    by_cases h : k = n <;> simp [remove_cons, h, find, ih]

theorem find_remove_ne (tbl : Table) {n m : String} (h : m ≠ n) :
    find (remove tbl n) m = find tbl m := by
  induction tbl with
  | nil => rfl
  | cons e rest ih =>
    obtain ⟨k, b⟩ := e
    by_cases hk : k = n
    · subst hk
      have hkm : ¬ k = m := fun e => h e.symm
      simp [remove_cons, find, ih, hkm]
    · by_cases hm : k = m
      · subst hm
        simp [remove_cons, h, find]
      · simp [remove_cons, hk, find, hm, ih]

theorem find_insert_self (tbl : Table) (n : String) (body : List Token) :
    find (insert tbl n body) n = some body := by
  simp [insert, find]

theorem find_insert_ne (tbl : Table) {n m : String} (body : List Token) (h : m ≠ n) :
    find (insert tbl n body) m = find tbl m := by
  have h2 : n ≠ m := fun e => h e.symm
  simp [insert, find, h2, find_remove_ne tbl h]

theorem remove_length_le (tbl : Table) (n : String) : (remove tbl n).length ≤ tbl.length := by
  simpa [remove] using List.length_filter_le _ tbl

theorem remove_length_lt (tbl : Table) (n : String) (body : List Token)
    (h : find tbl n = some body) : (remove tbl n).length < tbl.length := by
  induction tbl with
  | nil => simp [find] at h
  | cons e rest ih =>
    obtain ⟨k, b⟩ := e
    by_cases hk : k = n
    · have := remove_length_le rest n
      simp [remove_cons, hk]
      omega
    · simp [find, hk] at h
      have := ih h
      simp [remove_cons, hk]
      omega

/-- More fuel than the table has entries changes nothing: `expandTok` never
stops for lack of fuel when started with `tbl.length`. -/
theorem expandTok_fuel (f1 : Nat) : ∀ (f2 : Nat) (tbl : Table) (t : Token),
    tbl.length ≤ f1 → tbl.length ≤ f2 → expandTok f1 tbl t = expandTok f2 tbl t := by
  induction f1 with
  | zero =>
    intro f2 tbl t h1 _
    have ht : tbl = [] := List.length_eq_zero.mp (Nat.le_zero.mp h1)
    subst ht
    cases f2 <;> simp [expandTok, find]
  | succ n ih =>
    intro f2 tbl t h1 h2
    cases f2 with
    | zero =>
      have ht : tbl = [] := List.length_eq_zero.mp (Nat.le_zero.mp h2)
      subst ht
      simp [expandTok, find]
    | succ m =>
      simp only [expandTok]
      cases hf : find tbl t with
      | none => rfl
      | some body =>
        have hlt := remove_length_lt tbl t body hf
        have e : expandTok n (remove tbl t) = expandTok m (remove tbl t) :=
          funext fun u => ih m (remove tbl t) u (by omega) (by omega)
        simp [e]

/-! ## One inclusion of the header -/

theorem header_skipped (env : Env) (s : PPState) (h : s.skip ≠ 0) :
    processLines env unldLib_h s = s := by
  obtain ⟨m, o, k, d, l⟩ := s
  cases k with
  | zero => exact absurd rfl h
  | succ k => simp [processLines, unldLib_h, processLine]

theorem header_guarded (env : Env) (s : PPState) (h0 : s.skip = 0)
    (hg : isDefined s.macros _OSAL_OVERRIDE_UNLDLIB_H_ = true) :
    processLines env unldLib_h s = s := by
  obtain ⟨m, o, k, d, l⟩ := s
  simp only at h0 hg
  subst h0
  simp [processLines, unldLib_h, processLine, hg]

theorem header_fresh (env : Env) (s : PPState) (h0 : s.skip = 0)
    (hg : isDefined s.macros _OSAL_OVERRIDE_UNLDLIB_H_ = false) :
    processLines env unldLib_h s = afterHeader env s := by
  obtain ⟨m, o, k, d, l⟩ := s
  simp only at h0 hg
  subst h0
  have hr : redefinition m _OSAL_OVERRIDE_UNLDLIB_H_ [] = [] := by
    simp only [isDefined] at hg
    cases hf : find m _OSAL_OVERRIDE_UNLDLIB_H_ with
    | none => simp [redefinition, hf]
    | some b => simp [hf] at hg
  simp [processLines, unldLib_h, processLine, hg, afterHeader, tableBeforeMapping,
    includedTokens, hr]

/-! ## Macro replacement under the mapping -/

theorem expand_append (tbl : Table) (a b : List Token) :
    expand tbl (a ++ b) = expand tbl a ++ expand tbl b := by
  simp [expand]

theorem expand_cons (tbl : Table) (t : Token) (b : List Token) :
    expand tbl (t :: b) = expandTok tbl.length tbl t ++ expand tbl b := by
  simp [expand]

/-- A name mapped to a single token that is not a macro is replaced by that token. -/
theorem expandTok_mapped (tbl : Table) (k c : String) (hk : find tbl k = some [c])
    (hc : find tbl c = none) (hne : c ≠ k) (fuel : Nat) :
    expandTok (fuel + 1) tbl k = [c] := by
  cases fuel with
  | zero => simp [expandTok, hk]
  | succ n => simp [expandTok, hk, find_remove_ne tbl hne, hc]

/-- A name mapped to a single token that is not a macro never survives replacement. -/
theorem not_mem_expandTok (k c : String) (hne : c ≠ k) (fuel : Nat) :
    ∀ (tbl : Table) (t : Token), tbl.length ≤ fuel → find tbl k = some [c] →
      find tbl c = none → k ∉ expandTok fuel tbl t := by
  induction fuel with
  | zero =>
    intro tbl t hlen hk _
    have ht : tbl = [] := List.length_eq_zero.mp (Nat.le_zero.mp hlen)
    subst ht
    simp [find] at hk
  | succ n ih =>
    intro tbl t hlen hk hc
    by_cases htk : t = k
    · subst htk
      rw [expandTok_mapped tbl t c hk hc hne n]
      simpa using fun e => hne e.symm
    · simp only [expandTok]
      cases hf : find tbl t with
      | none => simpa using fun e => htk e.symm
      | some body =>
        have hlt := remove_length_lt tbl t body hf
        have hk2 : find (remove tbl t) k = some [c] := by
          rw [find_remove_ne tbl (fun e => htk e.symm)]; exact hk
        have hc2 : find (remove tbl t) c = none := by
          by_cases hct : c = t
          · subst hct; exact find_remove_self tbl c
          · rw [find_remove_ne tbl hct]; exact hc
        simp only [List.mem_flatMap, not_exists, not_and]
        intro u _
        exact ih (remove tbl t) u (by omega) hk2 hc2

theorem not_mem_expand (tbl : Table) (k c : String) (hne : c ≠ k)
    (hk : find tbl k = some [c]) (hc : find tbl c = none) (toks : List Token) :
    k ∉ expand tbl toks := by
  simp only [expand, List.mem_flatMap, not_exists, not_and]
  intro u _
  exact not_mem_expandTok k c hne tbl.length tbl u (Nat.le_refl _) hk hc

theorem expand_mapped (tbl : Table) (k c : String) (hne : c ≠ k)
    (hk : find tbl k = some [c]) (hc : find tbl c = none) (a b : List Token) :
    expand tbl (a ++ k :: b) = expand tbl a ++ c :: expand tbl b := by
  have hpos : tbl.length = (tbl.length - 1) + 1 := by
    cases tbl with
    | nil => simp [find] at hk
    | cons e rest => simp
  rw [expand_append, expand_cons, hpos, expandTok_mapped tbl k c hk hc hne]
  rfl

/-! ## Invariants of a translation unit -/

theorem stub_ne_real : OCS_unldByModuleId ≠ unldByModuleId := by decide

theorem stub_ne_guard : OCS_unldByModuleId ≠ _OSAL_OVERRIDE_UNLDLIB_H_ := by decide

theorem real_ne_guard : unldByModuleId ≠ _OSAL_OVERRIDE_UNLDLIB_H_ := by decide

theorem stubFree_afterHeader (env : Env) (henv : EnvNoStubMacro env) (s : PPState)
    (hs : find s.macros OCS_unldByModuleId = none) :
    find (afterHeader env s).macros OCS_unldByModuleId = none := by
  simp only [afterHeader]
  rw [find_insert_ne _ _ stub_ne_real]
  apply henv _ (by decide)
  apply henv _ (by decide)
  apply henv _ (by decide)
  rw [find_insert_ne _ _ stub_ne_guard]
  exact hs

theorem mapped_header (env : Env) (henv : EnvNoStubMacro env) (s : PPState)
    (h : StubFree s) : Mapped (processLines env unldLib_h s) := by
  obtain ⟨h0, hs, hm⟩ := h
  cases hg : isDefined s.macros _OSAL_OVERRIDE_UNLDLIB_H_ with
  | true =>
    rw [header_guarded env s h0 hg]
    exact ⟨h0, hs, hm hg⟩
  | false =>
    rw [header_fresh env s h0 hg]
    exact ⟨rfl, stubFree_afterHeader env henv s hs, find_insert_self _ _ _⟩

theorem mapped_stubFree (s : PPState) (h : Mapped s) : StubFree s :=
  ⟨h.1, h.2.1, fun _ => h.2.2⟩

theorem processLine_text (env : Env) (s : PPState) (h0 : s.skip = 0) (ts : List Token) :
    processLine env s (.text ts) = { s with out := s.out ++ expand s.macros ts } := by
  simp [processLine, h0]

theorem preprocess_snoc (env : Env) (tu : List TUItem) (it : TUItem) :
    preprocess env (tu ++ [it]) = processItem env (preprocess env tu) it := by
  simp [preprocess]

theorem mapped_item (env : Env) (henv : EnvNoStubMacro env) (s : PPState) (h : Mapped s)
    (it : TUItem) : Mapped (processItem env s it) := by
  cases it with
  | tokens ts =>
    obtain ⟨h0, hs, hm⟩ := h
    rw [processItem, processLine_text env s h0]
    exact ⟨h0, hs, hm⟩
  | includeOverride => exact mapped_header env henv s (mapped_stubFree s h)

theorem stubFree_item (env : Env) (henv : EnvNoStubMacro env) (s : PPState) (h : StubFree s)
    (it : TUItem) : StubFree (processItem env s it) := by
  cases it with
  | tokens ts =>
    obtain ⟨h0, hs, hm⟩ := h
    rw [processItem, processLine_text env s h0]
    exact ⟨h0, hs, hm⟩
  | includeOverride => exact mapped_stubFree _ (mapped_header env henv s h)

theorem stubFree_items (env : Env) (henv : EnvNoStubMacro env) (tu : List TUItem) :
    ∀ s, StubFree s → StubFree (tu.foldl (processItem env) s) := by
  induction tu with
  | nil => exact fun s h => h
  | cons it rest ih => exact fun s h => ih _ (stubFree_item env henv s h it)

theorem mapped_items (env : Env) (henv : EnvNoStubMacro env) (tu : List TUItem) :
    ∀ s, Mapped s → Mapped (tu.foldl (processItem env) s) := by
  induction tu with
  | nil => exact fun s h => h
  | cons it rest ih => exact fun s h => ih _ (mapped_item env henv s h it)

theorem stubFree_init : StubFree PPState.init := by
  simp [StubFree, PPState.init, find, isDefined]

/-- After a translation unit that has included the header, the mapping is in force. -/
theorem mapped_after_inclusion (env : Env) (henv : EnvNoStubMacro env)
    (pre mid : List TUItem) :
    Mapped (preprocess env (withInclusion pre mid)) := by
  simp only [preprocess, withInclusion, List.foldl_append, List.foldl_cons]
  apply mapped_items env henv
  exact mapped_header env henv _ (stubFree_items env henv pre _ stubFree_init)

theorem sampleEnv_noStubMacro : EnvNoStubMacro sampleEnv := by
  intro f _ tbl h
  unfold sampleEnv
  split_ifs
  · exact h
  · rw [find_insert_ne _ _ (by decide)]; exact h
  · exact h

theorem sampleEnv_keepsGuard : EnvKeepsGuard sampleEnv := by
  intro f _ tbl h
  unfold sampleEnv
  split_ifs
  · exact h
  · simp only [isDefined] at h ⊢
    rw [find_insert_ne _ _ (by decide)]; exact h
  · exact h

/-! ## Further facts used below -/

theorem guard_afterHeader (env : Env) (henv : EnvKeepsGuard env) (s : PPState) :
    isDefined (afterHeader env s).macros _OSAL_OVERRIDE_UNLDLIB_H_ = true := by
  simp only [afterHeader, isDefined]
  rw [find_insert_ne _ _ (fun e => real_ne_guard e.symm)]
  apply henv _ (by decide)
  apply henv _ (by decide)
  apply henv _ (by decide)
  simp [isDefined, find_insert_self]

theorem stubOf_real : stubOf unldByModuleId = OCS_unldByModuleId := by decide

theorem fileEffect_OCS (d : FunDecl) (tbl : Table) :
    fileEffect noIncludes (OCS_unldLib_h d) tbl
      = (expand tbl (declTokens d) ++ expand tbl (declTokens (counterfeitDecl d)), tbl) := by
  simp [fileEffect, OCS_unldLib_h, processLines, processLine]

theorem redefinition_fresh (m : Table) (n : String) (body : List Token)
    (h : isDefined m n = false) : redefinition m n body = [] := by
  simp only [isDefined] at h
  cases hf : find m n with
  | none => simp [redefinition, hf]
  | some b => simp [hf] at h

/-- The mapping is not defined by the first thirteen lines of the header. -/
theorem no_mapping_before_line (env : Env) (s : PPState) (k : Nat) (hk : k ≤ 13)
    (h0 : s.skip = 0) (hg : isDefined s.macros _OSAL_OVERRIDE_UNLDLIB_H_ = false) :
    Event.defined unldByModuleId [OCS_unldByModuleId]
      ∉ newEvents s.log.length (processLines env (unldLib_h.take k) s) := by
  obtain ⟨m, o, sk, dp, l⟩ := s
  simp only at h0 hg
  subst h0
  have hr := redefinition_fresh m _OSAL_OVERRIDE_UNLDLIB_H_ [] hg
  have hne : ¬ unldByModuleId = _OSAL_OVERRIDE_UNLDLIB_H_ := real_ne_guard
  interval_cases k <;>
    simp [unldLib_h, processLines, processLine, newEvents, hg, hr, hne]

/-- From the fourteenth line on, the three files have been included and what
`OCS_unldLib.h` emits comes first in the new output. -/
theorem includes_done_from_line (env : Env) (s : PPState) (k : Nat) (hk : 14 ≤ k)
    (h0 : s.skip = 0) (hg : isDefined s.macros _OSAL_OVERRIDE_UNLDLIB_H_ = false) :
    Event.included "OCS_unldLib.h"
      ∈ newEvents s.log.length (processLines env (unldLib_h.take k) s)
    ∧ (s.out ++ (env "OCS_unldLib.h" (insert s.macros _OSAL_OVERRIDE_UNLDLIB_H_ [])).1)
        <+: (processLines env (unldLib_h.take k) s).out := by
  obtain ⟨m, o, sk, dp, l⟩ := s
  simp only at h0 hg
  subst h0
  have hr := redefinition_fresh m _OSAL_OVERRIDE_UNLDLIB_H_ [] hg
  have h17 : ∀ j, 17 ≤ j → unldLib_h.take j = unldLib_h := fun j hj =>
    List.take_of_length_le (by simpa [unldLib_h] using hj)
  have pre : ∀ x y z : List Token, (o ++ x) <+: (o ++ (x ++ (y ++ z))) := fun x y z =>
    ⟨y ++ z, by simp⟩
  by_cases hk2 : 17 ≤ k
  · rw [h17 k hk2]
    simp [unldLib_h, processLines, processLine, newEvents, hg, hr, pre]
  · have hk3 : k ≤ 16 := by omega
    interval_cases k <;>
      simp [unldLib_h, processLines, processLine, newEvents, hg, hr, pre]

theorem ownTable_eq :
    ownTable = [(unldByModuleId, [OCS_unldByModuleId]), (_OSAL_OVERRIDE_UNLDLIB_H_, [])] := by
  decide

theorem expandTok_override (t : Token) :
    expandTok 1 [(unldByModuleId, [OCS_unldByModuleId])] t
      = [if t = unldByModuleId then OCS_unldByModuleId else t] := by
  by_cases ht : t = unldByModuleId
  · subst ht
    decide
  · have ht2 : ¬ unldByModuleId = t := fun e => ht e.symm
    simp [expandTok, find, ht, ht2]

theorem rename_eq_map (toks : List Token) :
    rename toks = toks.map (fun t => if t = unldByModuleId then OCS_unldByModuleId else t) := by
  have h : overrideTable unldLib_h = [(unldByModuleId, [OCS_unldByModuleId])] := by decide
  simp only [rename, expand, h, List.length_singleton]
  induction toks with
  | nil => rfl
  | cons t rest ih => simp [expandTok_override, ih]

/-! ## Why something is assumed of the included files -/

/-- If an included file makes the stub name a macro for the vendor name, a
reference after the inclusion comes out as the vendor name. -/
theorem cyclicEnv_keeps_reference :
    ¬ EnvNoStubMacro cyclicEnv
    ∧ (preprocess cyclicEnv [TUItem.includeOverride, TUItem.tokens ["unldByModuleId"]]).out
        = ["unldByModuleId"] := by
  refine ⟨?_, by decide⟩
  intro h
  have := h "vxWorks.h" (by decide) [] rfl
  revert this
  decide

/-- If an included file undefines the guard, a second inclusion processes the
body of the header again. -/
theorem unguardingEnv_repeats_body :
    ¬ EnvKeepsGuard unguardingEnv
    ∧ (processLines unguardingEnv unldLib_h PPState.init).out = ["int", "x", ";"]
    ∧ (processLines unguardingEnv unldLib_h
          (processLines unguardingEnv unldLib_h PPState.init)).out
        = ["int", "x", ";", "int", "x", ";"] := by
  refine ⟨?_, by decide, by decide⟩
  intro h
  have := h "moduleLib.h" (by decide) [(_OSAL_OVERRIDE_UNLDLIB_H_, [])] rfl
  revert this
  decide

/-! ## The claims -/

/-- C1: in every translation unit made of tokens and inclusions of the override
header, once the header has been included every later occurrence of the
identifier unldByModuleId is replaced by OCS_unldByModuleId, in place, and
unldByModuleId does not occur in what the later tokens are preprocessed to.
The included files, whose text is not at hand, are assumed not to make
OCS_unldByModuleId a macro. -/
theorem refs_rewritten_after_inclusion (env : Env) (henv : EnvNoStubMacro env)
    (pre mid : List TUItem) (post : List Token) :
    (preprocess env (withInclusion pre mid ++ [TUItem.tokens post])).out
        = (preprocess env (withInclusion pre mid)).out
          ++ expand (preprocess env (withInclusion pre mid)).macros post
    ∧ unldByModuleId ∉ expand (preprocess env (withInclusion pre mid)).macros post
    ∧ ∀ a b : List Token,
        expand (preprocess env (withInclusion pre mid)).macros (a ++ unldByModuleId :: b)
          = expand (preprocess env (withInclusion pre mid)).macros a
            ++ OCS_unldByModuleId :: expand (preprocess env (withInclusion pre mid)).macros b := by
  obtain ⟨h0, hs, hm⟩ := mapped_after_inclusion env henv pre mid
  refine ⟨?_, not_mem_expand _ unldByModuleId OCS_unldByModuleId stub_ne_real hm hs post,
    fun a b => expand_mapped _ unldByModuleId OCS_unldByModuleId stub_ne_real hm hs a b⟩
  rw [preprocess_snoc, processItem, processLine_text env _ h0]

/-- C1, at a sample: a unit with a reference before the inclusion and a call after it. -/
theorem refs_rewritten_after_inclusion_witness :
    EnvNoStubMacro sampleEnv
    ∧ (preprocess sampleEnv (withInclusion [TUItem.tokens ["unldByModuleId", ";"]] []
          ++ [TUItem.tokens ["unldByModuleId", "(", "id", ",", "0", ")", ";"]])).out
        = (preprocess sampleEnv (withInclusion [TUItem.tokens ["unldByModuleId", ";"]] [])).out
          ++ expand (preprocess sampleEnv
                (withInclusion [TUItem.tokens ["unldByModuleId", ";"]] [])).macros
              ["unldByModuleId", "(", "id", ",", "0", ")", ";"]
    ∧ unldByModuleId ∉ expand (preprocess sampleEnv
                (withInclusion [TUItem.tokens ["unldByModuleId", ";"]] [])).macros
              ["unldByModuleId", "(", "id", ",", "0", ")", ";"]
    ∧ expand (preprocess sampleEnv
            (withInclusion [TUItem.tokens ["unldByModuleId", ";"]] [])).macros
          (["x", "="] ++ unldByModuleId :: ["(", ")"])
        = expand (preprocess sampleEnv
              (withInclusion [TUItem.tokens ["unldByModuleId", ";"]] [])).macros ["x", "="]
          ++ OCS_unldByModuleId :: expand (preprocess sampleEnv
              (withInclusion [TUItem.tokens ["unldByModuleId", ";"]] [])).macros ["(", ")"] :=
  ⟨sampleEnv_noStubMacro,
   (refs_rewritten_after_inclusion sampleEnv sampleEnv_noStubMacro
      [TUItem.tokens ["unldByModuleId", ";"]] []
      ["unldByModuleId", "(", "id", ",", "0", ")", ";"]).1,
   (refs_rewritten_after_inclusion sampleEnv sampleEnv_noStubMacro
      [TUItem.tokens ["unldByModuleId", ";"]] []
      ["unldByModuleId", "(", "id", ",", "0", ")", ";"]).2.1,
   (refs_rewritten_after_inclusion sampleEnv sampleEnv_noStubMacro
      [TUItem.tokens ["unldByModuleId", ";"]] []
      ["unldByModuleId", "(", "id", ",", "0", ")", ";"]).2.2 ["x", "="] ["(", ")"]⟩

/-- C2: including the header a second time changes nothing.  From every state,
the state after two inclusions equals the state after one: the same macro
table, the same output, the same conditional nesting and the same log of
executed directives, so nothing is defined or redefined the second time.  The
reason is the guard: after a first inclusion in a processed region the macro
_OSAL_OVERRIDE_UNLDLIB_H_ is defined, and the header leaves every state that
has it defined as it is; this also holds when tokens stand between the two
inclusions.  The included files are assumed not to undefine the guard. -/
theorem second_inclusion_changes_nothing (env : Env) (henv : EnvKeepsGuard env) (s : PPState) :
    processLines env unldLib_h (processLines env unldLib_h s) = processLines env unldLib_h s
    ∧ (processLines env unldLib_h (processLines env unldLib_h s)).macros
        = (processLines env unldLib_h s).macros
    ∧ (processLines env unldLib_h (processLines env unldLib_h s)).out
        = (processLines env unldLib_h s).out
    ∧ (processLines env unldLib_h (processLines env unldLib_h s)).log
        = (processLines env unldLib_h s).log
    ∧ (s.skip = 0 →
        isDefined (processLines env unldLib_h s).macros _OSAL_OVERRIDE_UNLDLIB_H_ = true)
    ∧ (∀ toks : List Token,
        processLines env unldLib_h (processLine env (processLines env unldLib_h s) (Line.text toks))
          = processLine env (processLines env unldLib_h s) (Line.text toks)) := by
  have key : processLines env unldLib_h (processLines env unldLib_h s)
      = processLines env unldLib_h s
      ∧ (s.skip = 0 →
          isDefined (processLines env unldLib_h s).macros _OSAL_OVERRIDE_UNLDLIB_H_ = true) := by
    by_cases h0 : s.skip = 0
    · cases hg : isDefined s.macros _OSAL_OVERRIDE_UNLDLIB_H_ with
      | true =>
        rw [header_guarded env s h0 hg, header_guarded env s h0 hg]
        exact ⟨rfl, fun _ => hg⟩
      | false =>
        rw [header_fresh env s h0 hg]
        exact ⟨header_guarded env _ rfl (guard_afterHeader env henv s),
          fun _ => guard_afterHeader env henv s⟩
    · rw [header_skipped env s h0, header_skipped env s h0]
      exact ⟨rfl, fun h => absurd h h0⟩
  have between : ∀ toks : List Token,
      processLines env unldLib_h (processLine env (processLines env unldLib_h s) (Line.text toks))
        = processLine env (processLines env unldLib_h s) (Line.text toks) := by
    intro toks
    by_cases h0 : s.skip = 0
    · have hs : (processLines env unldLib_h s).skip = 0 := by
        cases hg : isDefined s.macros _OSAL_OVERRIDE_UNLDLIB_H_ with
        | true => rw [header_guarded env s h0 hg]; exact h0
        | false => rw [header_fresh env s h0 hg]; rfl
      rw [processLine_text env _ hs]
      exact header_guarded env _ hs (key.2 h0)
    · rw [header_skipped env s h0]
      have e : processLine env s (Line.text toks) = s := by simp [processLine, h0]
      rw [e, header_skipped env s h0]
  refine ⟨key.1, ?_, ?_, ?_, key.2, between⟩ <;> rw [key.1]

/-- C2, at a sample: the header included twice at the start of a translation unit. -/
theorem second_inclusion_changes_nothing_witness :
    EnvKeepsGuard sampleEnv
    ∧ (processLines sampleEnv unldLib_h (processLines sampleEnv unldLib_h PPState.init)
        = processLines sampleEnv unldLib_h PPState.init
      ∧ (processLines sampleEnv unldLib_h (processLines sampleEnv unldLib_h PPState.init)).macros
        = (processLines sampleEnv unldLib_h PPState.init).macros
      ∧ (processLines sampleEnv unldLib_h (processLines sampleEnv unldLib_h PPState.init)).out
        = (processLines sampleEnv unldLib_h PPState.init).out
      ∧ (processLines sampleEnv unldLib_h (processLines sampleEnv unldLib_h PPState.init)).log
        = (processLines sampleEnv unldLib_h PPState.init).log
      ∧ isDefined (processLines sampleEnv unldLib_h PPState.init).macros
          _OSAL_OVERRIDE_UNLDLIB_H_ = true
      ∧ processLines sampleEnv unldLib_h
          (processLine sampleEnv (processLines sampleEnv unldLib_h PPState.init)
            (Line.text ["unldByModuleId", ";"]))
        = processLine sampleEnv (processLines sampleEnv unldLib_h PPState.init)
            (Line.text ["unldByModuleId", ";"])) :=
  ⟨sampleEnv_keepsGuard,
   (second_inclusion_changes_nothing sampleEnv sampleEnv_keepsGuard PPState.init).1,
   (second_inclusion_changes_nothing sampleEnv sampleEnv_keepsGuard PPState.init).2.1,
   (second_inclusion_changes_nothing sampleEnv sampleEnv_keepsGuard PPState.init).2.2.1,
   (second_inclusion_changes_nothing sampleEnv sampleEnv_keepsGuard PPState.init).2.2.2.1,
   (second_inclusion_changes_nothing sampleEnv sampleEnv_keepsGuard PPState.init).2.2.2.2.1 rfl,
   (second_inclusion_changes_nothing sampleEnv sampleEnv_keepsGuard PPState.init).2.2.2.2.2
      ["unldByModuleId", ";"]⟩

/-- C3: the override table of the header has exactly one binding: its only key
is unldByModuleId, bound once, and the target of that binding is the single
token OCS_unldByModuleId; the include guard is not part of the table. -/
theorem override_table_single_binding :
    overrideTable unldLib_h = [(unldByModuleId, [OCS_unldByModuleId])]
    ∧ (overrideTable unldLib_h).length = 1
    ∧ (overrideTable unldLib_h).map Prod.fst = [unldByModuleId]
    ∧ ((overrideTable unldLib_h).map Prod.fst).count unldByModuleId = 1
    ∧ (∀ n body, find (overrideTable unldLib_h) n = some body
        ↔ (n = unldByModuleId ∧ body = [OCS_unldByModuleId]))
    ∧ includeGuard unldLib_h = some _OSAL_OVERRIDE_UNLDLIB_H_ := by
  have h : overrideTable unldLib_h = [(unldByModuleId, [OCS_unldByModuleId])] := by decide
  refine ⟨h, by rw [h]; rfl, by rw [h]; rfl, by rw [h]; decide, ?_, by decide⟩
  intro n body
  rw [h]
  by_cases hn : unldByModuleId = n
  · subst hn
    simp [find]
    exact eq_comm
  · have hn2 : ¬ n = unldByModuleId := fun e => hn e.symm
    simp [find, hn, hn2]

/-- C4: the counterfeit has the call signature of the original.  For every
declaration of unldByModuleId, the counterfeit declaration is named
OCS_unldByModuleId, which is what the header rewrites the original name to, and
has the same return type, the same parameter types in the same order and the
same arity.  A call site needs no change: the header rewrites the name of the
called function and passes the argument tokens on, and a call agrees with the
original declaration exactly when the same call under the rewritten name agrees
with the counterfeit declaration. -/
theorem counterfeit_call_compatible (d : FunDecl) (hd : d.name = unldByModuleId) :
    (counterfeitDecl d).name = OCS_unldByModuleId
    ∧ rename [d.name] = [(counterfeitDecl d).name]
    ∧ (counterfeitDecl d).ret = d.ret
    ∧ (counterfeitDecl d).params = d.params
    ∧ (counterfeitDecl d).params.length = d.params.length
    ∧ (∀ args : List Token, rename (d.name :: "(" :: args ++ [")"])
        = (counterfeitDecl d).name :: "(" :: rename args ++ [")"])
    ∧ ∀ (args : List (List Token)) (result : List Token),
        callMatches (counterfeitDecl d) (stubOf d.name) args result
          = callMatches d d.name args result := by
  have hn : (counterfeitDecl d).name = OCS_unldByModuleId := by
    simp only [counterfeitDecl, hd, stubOf_real]
  refine ⟨hn, ?_, rfl, rfl, rfl, ?_, ?_⟩
  · rw [hn, hd]
    decide
  · intro args
    have h1 : ¬ "(" = unldByModuleId := by decide
    have h2 : ¬ ")" = unldByModuleId := by decide
    rw [hn, hd]
    simp [rename_eq_map, h1, h2]
  · intro args result
    simp [callMatches, counterfeitDecl]

/-- C4, at a sample declaration and a sample call. -/
theorem counterfeit_call_compatible_witness :
    sampleDecl.name = unldByModuleId
    ∧ (counterfeitDecl sampleDecl).name = OCS_unldByModuleId
    ∧ rename [sampleDecl.name] = [(counterfeitDecl sampleDecl).name]
    ∧ (counterfeitDecl sampleDecl).ret = sampleDecl.ret
    ∧ (counterfeitDecl sampleDecl).params = sampleDecl.params
    ∧ (counterfeitDecl sampleDecl).params.length = sampleDecl.params.length
    ∧ rename (sampleDecl.name :: "(" :: ["id", ",", "0"] ++ [")"])
        = (counterfeitDecl sampleDecl).name :: "(" :: rename ["id", ",", "0"] ++ [")"]
    ∧ callMatches (counterfeitDecl sampleDecl) (stubOf sampleDecl.name)
          [["MODULE_ID"], ["int"]] ["STATUS"]
        = callMatches sampleDecl sampleDecl.name [["MODULE_ID"], ["int"]] ["STATUS"] :=
  ⟨rfl,
   (counterfeit_call_compatible sampleDecl rfl).1,
   (counterfeit_call_compatible sampleDecl rfl).2.1,
   (counterfeit_call_compatible sampleDecl rfl).2.2.1,
   (counterfeit_call_compatible sampleDecl rfl).2.2.2.1,
   (counterfeit_call_compatible sampleDecl rfl).2.2.2.2.1,
   (counterfeit_call_compatible sampleDecl rfl).2.2.2.2.2.1 ["id", ",", "0"],
   (counterfeit_call_compatible sampleDecl rfl).2.2.2.2.2.2 [["MODULE_ID"], ["int"]] ["STATUS"]⟩

/-- C5: the header includes its declaring header before the line that defines
the mapping.  The files the header includes are OCS_unldLib.h, vxWorks.h and
moduleLib.h, all on lines before the mapping.  With OCS_unldLib.h as the
specification describes it (it brings in the declaration of the real signature
of unldByModuleId and the declaration of the counterfeit, whose name is the
target of the mapping), at every point of the header where the header has put
the mapping in force, OCS_unldLib.h has been included and both declarations
stand at the start of what the header has emitted. -/
theorem declaration_precedes_mapping (env : Env) (d : FunDecl) (s : PPState) (k : Nat)
    (henv : env "OCS_unldLib.h" = fileEffect noIncludes (OCS_unldLib_h d))
    (hd : d.name = unldByModuleId)
    (h0 : s.skip = 0) (hg : isDefined s.macros _OSAL_OVERRIDE_UNLDLIB_H_ = false)
    (hdef : Event.defined unldByModuleId [OCS_unldByModuleId]
      ∈ newEvents s.log.length (processLines env (unldLib_h.take k) s)) :
    ownIncludes unldLib_h = ["OCS_unldLib.h", "vxWorks.h", "moduleLib.h"]
    ∧ ownIncludes (unldLib_h.take
          (unldLib_h.indexOf (Line.define unldByModuleId [OCS_unldByModuleId])))
        = ["OCS_unldLib.h", "vxWorks.h", "moduleLib.h"]
    ∧ (counterfeitDecl d).name = OCS_unldByModuleId
    ∧ Event.included "OCS_unldLib.h"
        ∈ newEvents s.log.length (processLines env (unldLib_h.take k) s)
    ∧ (s.out ++ (expand (insert s.macros _OSAL_OVERRIDE_UNLDLIB_H_ []) (declTokens d)
          ++ expand (insert s.macros _OSAL_OVERRIDE_UNLDLIB_H_ [])
              (declTokens (counterfeitDecl d))))
        <+: (processLines env (unldLib_h.take k) s).out := by
  have hk : 14 ≤ k := by
    by_contra hlt
    exact no_mapping_before_line env s k (by omega) h0 hg hdef
  have h := includes_done_from_line env s k hk h0 hg
  rw [henv, fileEffect_OCS] at h
  have hn : (counterfeitDecl d).name = OCS_unldByModuleId := by
    simp only [counterfeitDecl, hd, stubOf_real]
  exact ⟨by decide, by decide, hn, h.1, h.2⟩

/-- C5, at a sample: the whole header, from the initial state. -/
theorem declaration_precedes_mapping_witness :
    (specEnv "OCS_unldLib.h" = fileEffect noIncludes (OCS_unldLib_h sampleDecl)
      ∧ sampleDecl.name = unldByModuleId
      ∧ PPState.init.skip = 0
      ∧ isDefined PPState.init.macros _OSAL_OVERRIDE_UNLDLIB_H_ = false
      ∧ Event.defined unldByModuleId [OCS_unldByModuleId]
          ∈ newEvents PPState.init.log.length
              (processLines specEnv (unldLib_h.take 17) PPState.init))
    ∧ ownIncludes unldLib_h = ["OCS_unldLib.h", "vxWorks.h", "moduleLib.h"]
    ∧ ownIncludes (unldLib_h.take
          (unldLib_h.indexOf (Line.define unldByModuleId [OCS_unldByModuleId])))
        = ["OCS_unldLib.h", "vxWorks.h", "moduleLib.h"]
    ∧ (counterfeitDecl sampleDecl).name = OCS_unldByModuleId
    ∧ Event.included "OCS_unldLib.h"
        ∈ newEvents PPState.init.log.length
            (processLines specEnv (unldLib_h.take 17) PPState.init)
    ∧ (PPState.init.out ++ (expand (insert PPState.init.macros _OSAL_OVERRIDE_UNLDLIB_H_ [])
            (declTokens sampleDecl)
          ++ expand (insert PPState.init.macros _OSAL_OVERRIDE_UNLDLIB_H_ [])
            (declTokens (counterfeitDecl sampleDecl))))
        <+: (processLines specEnv (unldLib_h.take 17) PPState.init).out :=
  ⟨⟨rfl, rfl, rfl, rfl, by decide⟩,
   declaration_precedes_mapping specEnv sampleDecl PPState.init 17 rfl rfl rfl rfl (by decide)⟩

/-- C6: the header has no line of its own that emits a token.  Its text parses
to `unldLib_h`; every line of it is blank (after comment removal) or one of the
directives #ifndef, #define, #include, #endif; no line contributes a token; so
with empty included files the output is unchanged from every state, and with
arbitrary included files the output grows by exactly what those files emit. -/
theorem header_emits_no_tokens :
    parseFile unldLib_h_text = some unldLib_h
    ∧ unldLib_h.all (fun l => decide (l = Line.blank) || isGuardDefineIncludeEndif l) = true
    ∧ unldLib_h.flatMap ownTokens = []
    ∧ (∀ s : PPState, (processLines noIncludes unldLib_h s).out = s.out)
    ∧ ∀ (env : Env) (s : PPState), (processLines env unldLib_h s).out
        = if s.skip = 0 ∧ isDefined s.macros _OSAL_OVERRIDE_UNLDLIB_H_ = false
          then s.out ++ includedTokens env s.macros else s.out := by
  have general : ∀ (env : Env) (s : PPState), (processLines env unldLib_h s).out
        = if s.skip = 0 ∧ isDefined s.macros _OSAL_OVERRIDE_UNLDLIB_H_ = false
          then s.out ++ includedTokens env s.macros else s.out := by
    intro env s
    by_cases h0 : s.skip = 0
    · cases hg : isDefined s.macros _OSAL_OVERRIDE_UNLDLIB_H_ with
      | true => simp [header_guarded env s h0 hg]
      | false => simp [header_fresh env s h0 hg, afterHeader, h0]
    · simp [header_skipped env s h0, h0]
  refine ⟨parse_unldLib_h, by decide, by decide, ?_, general⟩
  intro s
  rw [general]
  split_ifs <;> simp [includedTokens, noIncludes]

/-- C7: the header's own directives define two macros, the guard with an empty
replacement list and unldByModuleId.  Under the header's own definitions an
occurrence of any other identifier is left as it is and an occurrence of the
guard disappears; and the header's own directives leave the definition of every
other name as it was, from every state. -/
theorem own_macros_frame :
    ownDefines unldLib_h = [(_OSAL_OVERRIDE_UNLDLIB_H_, []), (unldByModuleId, [OCS_unldByModuleId])]
    ∧ ownTable = [(unldByModuleId, [OCS_unldByModuleId]), (_OSAL_OVERRIDE_UNLDLIB_H_, [])]
    ∧ (∀ (t : Token) (a b : List Token),
        t ≠ _OSAL_OVERRIDE_UNLDLIB_H_ → t ≠ unldByModuleId →
        expand ownTable (a ++ t :: b) = expand ownTable a ++ t :: expand ownTable b)
    ∧ (∀ a b : List Token,
        expand ownTable (a ++ _OSAL_OVERRIDE_UNLDLIB_H_ :: b)
          = expand ownTable a ++ expand ownTable b)
    ∧ ∀ (s : PPState) (n : String), n ≠ _OSAL_OVERRIDE_UNLDLIB_H_ → n ≠ unldByModuleId →
        find (processLines noIncludes unldLib_h s).macros n = find s.macros n := by
  refine ⟨by decide, ownTable_eq, ?_, ?_, ?_⟩
  · intro t a b hg hr
    have hg2 : ¬ _OSAL_OVERRIDE_UNLDLIB_H_ = t := fun e => hg e.symm
    have hr2 : ¬ unldByModuleId = t := fun e => hr e.symm
    rw [expand_append, expand_cons, ownTable_eq]
    simp [expandTok, find, hg2, hr2]
  · intro a b
    rw [expand_append, expand_cons, ownTable_eq]
    have : expandTok 2 [(unldByModuleId, [OCS_unldByModuleId]), (_OSAL_OVERRIDE_UNLDLIB_H_, [])]
        _OSAL_OVERRIDE_UNLDLIB_H_ = [] := by decide
    simp [this]
  · intro s n hg hr
    by_cases h0 : s.skip = 0
    · cases hd : isDefined s.macros _OSAL_OVERRIDE_UNLDLIB_H_ with
      | true => rw [header_guarded noIncludes s h0 hd]
      | false =>
        rw [header_fresh noIncludes s h0 hd]
        simp only [afterHeader, tableBeforeMapping, noIncludes]
        rw [find_insert_ne _ _ hr, find_insert_ne _ _ hg]
    · rw [header_skipped noIncludes s h0]

/-- C7, at a sample: the identifier STATUS, and a state that defines it. -/
theorem own_macros_frame_witness :
    ("STATUS" ≠ _OSAL_OVERRIDE_UNLDLIB_H_ ∧ "STATUS" ≠ unldByModuleId)
    ∧ expand ownTable (["x"] ++ "STATUS" :: ["y"])
        = expand ownTable ["x"] ++ "STATUS" :: expand ownTable ["y"]
    ∧ find (processLines noIncludes unldLib_h
          ⟨[("STATUS", ["int"])], [], 0, 0, []⟩).macros "STATUS"
        = find (PPState.mk [("STATUS", ["int"])] [] 0 0 []).macros "STATUS" :=
  ⟨⟨by decide, by decide⟩,
   own_macros_frame.2.2.1 "STATUS" ["x"] ["y"] (by decide) (by decide),
   own_macros_frame.2.2.2.2 ⟨[("STATUS", ["int"])], [], 0, 0, []⟩ "STATUS"
     (by decide) (by decide)⟩

/-- C8: the renaming of the header is idempotent and stops after one
replacement.  The target OCS_unldByModuleId differs from the key
unldByModuleId and is not a key of the override table; renaming replaces each
unldByModuleId by OCS_unldByModuleId and nothing else; one level of
replacement gives the same as any number of levels; renaming twice equals
renaming once; OCS_unldByModuleId is a fixed point. -/
theorem rename_idempotent :
    OCS_unldByModuleId ≠ unldByModuleId
    ∧ find (overrideTable unldLib_h) OCS_unldByModuleId = none
    ∧ (∀ toks : List Token,
        rename toks = toks.map (fun t => if t = unldByModuleId then OCS_unldByModuleId else t))
    ∧ (∀ (n : Nat) (t : Token),
        expandTok (n + 1) (overrideTable unldLib_h) t = expandTok 1 (overrideTable unldLib_h) t)
    ∧ (∀ toks : List Token, rename (rename toks) = rename toks)
    ∧ rename [OCS_unldByModuleId] = [OCS_unldByModuleId] := by
  refine ⟨stub_ne_real, by decide, rename_eq_map, ?_, ?_, by decide⟩
  · intro n t
    exact expandTok_fuel (n + 1) 1 (overrideTable unldLib_h) t
      (by simp [show overrideTable unldLib_h = [(unldByModuleId, [OCS_unldByModuleId])] by decide])
      (by simp [show overrideTable unldLib_h = [(unldByModuleId, [OCS_unldByModuleId])] by decide])
  · intro toks
    rw [rename_eq_map (rename toks), rename_eq_map toks, List.map_map]
    apply List.map_congr_left
    intro t _
    by_cases ht : t = unldByModuleId
    · simp [ht, stub_ne_real]
    · simp [ht]

end OsalOverride
